import Mathlib

/-
Verification development for the MIDRC DICOM harmonization utilities
(util/analyze_in_out.py and util/xlsx2tsv.py).

Strings are modelled as lists of Unicode code points (List Nat); Python's
regex class \s is modelled by its ASCII part (codes 9..13 and 32), and
str.upper by ASCII upper-casing, which covers the whole data domain of the
repository (DICOM study descriptions and modality codes).
-/

namespace Midrc

/-- A string value, as a list of code points. -/
abbrev Str := List Nat

/-- Convert a Lean string literal to the code-point model. -/
def s2l (s : String) : Str := s.data.map Char.toNat

/-- Membership of a code point in Python's regex class \s (ASCII part):
space (32) and the control characters 9..13 (tab, LF, VT, FF, CR). -/
def wsN (n : Nat) : Bool := n == 32 || (9 ≤ n && n ≤ 13)

/-- Python str.upper, per character (ASCII): a..z map to A..Z, the rest
is unchanged. -/
def pyUpperChar (n : Nat) : Nat := if 97 ≤ n ∧ n ≤ 122 then n - 32 else n

/-- Python str.upper on a whole string. -/
def pyUpper (l : Str) : Str := l.map pyUpperChar

/-- Scanner for re.sub(WHITESPACE_PATTERN, "", s) at positions past the
start of the string, where WHITESPACE_PATTERN is the source constant
r"^\s+|\s+$|\s+(?=\s)" (analyze_in_out.py line 39).  A whitespace char
is dropped when the rest of the string is all whitespace (the \s+$
alternative) or when the next char is also whitespace (the \s+(?=\s)
alternative, consumed one char at a time, which is equivalent because the
replacement is empty); otherwise it is kept. -/
def stripSub : Str → Str
  | [] => []
  | c :: rest =>
    if wsN c then
      if rest.all wsN then []
      else
        match rest with
        | [] => []
        | d :: t => if wsN d then stripSub (d :: t) else c :: stripSub (d :: t)
    else c :: stripSub rest

/-- re.sub(WHITESPACE_PATTERN, "", s): the ^\s+ alternative removes the
maximal leading whitespace run, the rest of the string is handled by
stripSub. -/
def wsPatternSub (l : Str) : Str := stripSub (l.dropWhile wsN)

/-- The inline StudyDescription normalization of analyze_in_out.py
(lines 97-98 and 133,137): re.sub(WHITESPACE_PATTERN, "", s) followed by
str.upper(). -/
def normalize (l : Str) : Str := pyUpper (wsPatternSub l)

/-- pandas Series.str.replace(" ", "") on one value: every space
character (code 32) is removed (analyze_in_out.py lines 79 and 261). -/
def removeSpaces (l : Str) : Str := l.filter (fun c => c != 32)

/-- Python "s".split(","): split at every comma, no run collapsing;
the empty string yields the one-element list [""]. -/
def pySplit : Str → List Str
  | [] => [[]]
  | c :: rest =>
    if c == 44 then [] :: pySplit rest
    else
      match pySplit rest with
      | [] => [[c]]
      | g :: gs => (c :: g) :: gs

/-- Helper for pdDropDuplicates: scan the list keeping the rows not yet
seen, accumulating the seen ones. -/
def pdDropDupAux {α : Type} [DecidableEq α] (seen : List α) : List α → List α
  | [] => []
  | x :: xs => if seen.contains x then pdDropDupAux seen xs else x :: pdDropDupAux (x :: seen) xs

/-- pandas DataFrame.drop_duplicates (keep="first"): keep the first
occurrence of every row, drop later exact duplicates. -/
def pdDropDuplicates {α : Type} [DecidableEq α] (l : List α) : List α := pdDropDupAux [] l

/-- Scanner for re.sub(WHITESPACE_PATTERN, " ", s) at positions past the
start of the string (used on the L-Long Common Name column,
analyze_in_out.py line 269).  A whole trailing whitespace run (the \s+$
alternative) becomes one space; an interior run of length n ≥ 2 matches
\s+(?=\s) on its first n-1 chars, which become one replacement space,
after which the run's last char is kept; an interior single whitespace
char is kept.  The dropped flag records that chars of the current run's
match have been consumed and the one replacement space is still owed; it
is paid out at the run's last char (a run reaching the end of the string
is instead consumed whole by \s+$). -/
def stripSubSp (dropped : Bool) : Str → Str
  | [] => []
  | c :: rest =>
    if wsN c then
      if rest.all wsN then [32]
      else
        match rest with
        | [] => [32]
        | d :: t =>
          if wsN d then stripSubSp true (d :: t)
          else if dropped then 32 :: c :: stripSubSp false (d :: t)
          else c :: stripSubSp false (d :: t)
    else c :: stripSubSp false rest

/-- re.sub(WHITESPACE_PATTERN, " ", s): the ^\s+ alternative turns the
maximal leading whitespace run into one space, the rest of the string is
handled by stripSubSp. -/
def wsPatternSubSpace (l : Str) : Str :=
  if l.head?.any wsN then 32 :: stripSubSp false (l.dropWhile wsN) else stripSubSp false l

/-- Python str.strip(): remove leading and trailing whitespace
(analyze_in_out.py line 270). -/
def pyStrip (l : Str) : Str := ((l.dropWhile wsN).reverse.dropWhile wsN).reverse

/-- A row of the mapping table (out/StudyDescription_mapping_table.tsv):
columns StudyDescription, Modality, "LOINC code", "L-Long Common Name". -/
structure MappingRow where
  StudyDescription : Str
  Modality : Str
  loincCode : Str
  longCommonName : Str
deriving DecidableEq

/-- A row of the contributor input table (in/StudyDescriptions_Gen3.tsv):
columns StudyDescription, Modality, frequency. -/
structure InputRow where
  StudyDescription : Str
  Modality : Str
  frequency : Str
deriving DecidableEq

/-- A row of the unmapped-combinations output, with the COLUMNS_OUTPUT
columns StudyDescription, Modality, frequency, Contributor. -/
structure OutputRow where
  StudyDescription : Str
  Modality : Str
  frequency : Str
  Contributor : Str
deriving DecidableEq

/-- analyze_in_out.py line 79: remove all spaces from the Modality column. -/
def modalitySpacesRemoved (rows : List MappingRow) : List MappingRow :=
  rows.map (fun r => { r with Modality := removeSpaces r.Modality })

/-- analyze_in_out.py lines 82-91: keep a copy of the space-free table,
split Modality on comma, explode one row per atom, and concatenate the
original copy with the exploded rows. -/
def explodeUnion (rows : List MappingRow) : List MappingRow :=
  rows ++ rows.flatMap (fun r => (pySplit r.Modality).map (fun a => { r with Modality := a }))

/-- The dataframe transformation of load_and_prepare_mapping_table
(analyze_in_out.py lines 78-98), file loading elided: space-free Modality,
explode-and-union, drop duplicate rows, then normalize StudyDescription
(whitespace pattern removal followed by upper-casing). -/
def load_and_prepare_mapping_table (rows : List MappingRow) : List MappingRow :=
  (pdDropDuplicates (explodeUnion (modalitySpacesRemoved rows))).map
    (fun r => { r with StudyDescription := normalize r.StudyDescription })

/-- The dataframe transformation of load_and_clean_input_data
(analyze_in_out.py lines 133-137), file loading elided: StudyDescription
and Modality get the whitespace-pattern substitution, then
StudyDescription alone is upper-cased. -/
def load_and_clean_input_data (rows : List InputRow) : List InputRow :=
  rows.map (fun r =>
    { StudyDescription := normalize r.StudyDescription,
      Modality := wsPatternSub r.Modality,
      frequency := r.frequency })

/-- The CONTRIBUTOR_NAME constant of analyze_in_out.py. -/
def CONTRIBUTOR_NAME : Str := s2l "Gen3"

/-- Join-key equality used by the merge on StudyDescription and Modality. -/
def keyMatches (m : MappingRow) (r : InputRow) : Bool :=
  m.StudyDescription == r.StudyDescription && m.Modality == r.Modality

/-- The output row built for an unmapped input row: its StudyDescription,
Modality and frequency, stamped with the Contributor column. -/
def mkOutputRow (r : InputRow) : OutputRow :=
  { StudyDescription := r.StudyDescription, Modality := r.Modality,
    frequency := r.frequency, Contributor := CONTRIBUTOR_NAME }

/-- find_unmapped_combinations (analyze_in_out.py lines 161-180): the
outer merge on StudyDescription and Modality with indicator, restricted
to "left_only", keeps exactly the input rows whose key matches no mapping
row, once each; the Contributor column is then set to CONTRIBUTOR_NAME,
the frequency column comes from the input file, and the result is
restricted to COLUMNS_OUTPUT. -/
def find_unmapped_combinations (input_df : List InputRow) (mapping_df : List MappingRow) : List OutputRow :=
  (input_df.filter (fun r => !(mapping_df.any (fun m => keyMatches m r)))).map mkOutputRow

/-- Lexicographic comparison of string values by code point, the order on
a column of Python strings. -/
def lexLtStr : Str → Str → Bool
  | [], [] => false
  | [], _ :: _ => true
  | _ :: _, [] => false
  | a :: as, b :: bs => if a < b then true else if b < a then false else lexLtStr as bs

/-- Insert a row into a frequency-descending list, before the first row
of strictly smaller frequency. -/
def insertByFreqDesc (x : OutputRow) : List OutputRow → List OutputRow
  | [] => [x]
  | y :: ys => if lexLtStr y.frequency x.frequency then x :: y :: ys else y :: insertByFreqDesc x ys

/-- differences_df.sort_values(by=["frequency"], ascending=False)
(analyze_in_out.py line 207).  The source leaves the sort kind at the
pandas default "quicksort", whose ordering among rows of equal frequency
is not specified; the model uses an insertion sort on the frequency key
and no theorem relies on its tie behaviour. -/
def sort_values (l : List OutputRow) : List OutputRow := l.foldr insertByFreqDesc []

/-- The filesystem state save_differences can touch: whether the pending
directory exists and the content of pending/StudyDescription_diffs.csv. -/
structure FileSystem where
  pendingDirExists : Bool
  diffsFile : Option (List OutputRow)
deriving DecidableEq

/-- save_differences (analyze_in_out.py lines 187-224) as a filesystem
transformer: an empty dataframe returns at once; otherwise the rows are
sorted by frequency descending, the pending directory is created if
missing, and the file is written.  (The frequency_x rename on lines
203-204 is unreachable: find_unmapped_combinations already restricted the
columns to COLUMNS_OUTPUT.) -/
def save_differences (differences_df : List OutputRow) (fs : FileSystem) : FileSystem :=
  if differences_df.isEmpty then fs
  else { pendingDirExists := true, diffsFile := some (sort_values differences_df) }

/-- The column normalization of validate_mapping_table
(analyze_in_out.py lines 259-270): Modality loses all spaces,
StudyDescription gets the whitespace pattern removal plus upper-casing,
"LOINC code" the whitespace pattern removal, "L-Long Common Name" the
whitespace pattern substitution by a space followed by str.strip().
The Modality column is NOT exploded. -/
def validateNormalize (rows : List MappingRow) : List MappingRow :=
  rows.map (fun r =>
    { Modality := removeSpaces r.Modality,
      StudyDescription := normalize r.StudyDescription,
      loincCode := wsPatternSub r.loincCode,
      longCommonName := pyStrip (wsPatternSubSpace r.longCommonName) })

/-- df.groupby(key)[val].nunique(): for each group key, the number of
distinct values in the group.  (pandas lists group keys in sorted order,
the model in first-occurrence order; no theorem depends on the order.) -/
def groupNunique {κ ν : Type} [DecidableEq κ] [DecidableEq ν]
    (key : MappingRow → κ) (val : MappingRow → ν) (rows : List MappingRow) : List (κ × Nat) :=
  (pdDropDuplicates (rows.map key)).map
    (fun k => (k, (pdDropDuplicates ((rows.filter (fun r => key r == k)).map val)).length))

/-- The report produced by validate_mapping_table: the pass flag and the
conflicting groups of the three checks, each with its distinct-value
count. -/
structure ValidationOutcome where
  passed : Bool
  keyConflicts : List ((Str × Str) × Nat)
  codeConflicts : List (Str × Nat)
  descriptionOnlyConflicts : List (Str × Nat)
deriving DecidableEq

/-- validate_mapping_table (analyze_in_out.py lines 259-343), file
loading and printing elided: normalize the columns without exploding
Modality, then check 1 groups by (Modality, StudyDescription) counting
distinct LOINC codes, check 2 groups by LOINC code counting distinct
L-Long Common Names, check 3 groups by StudyDescription counting distinct
LOINC codes.  validation_passed starts true and is cleared by a non-empty
conflict list of check 1 or check 2; check 3 only warns. -/
def validate_mapping_table (rows : List MappingRow) : ValidationOutcome :=
  let m := validateNormalize rows
  let kc := (groupNunique (fun r => (r.Modality, r.StudyDescription)) (fun r => r.loincCode) m).filter
    (fun p => decide (1 < p.2))
  let cc := (groupNunique (fun r => r.loincCode) (fun r => r.longCommonName) m).filter
    (fun p => decide (1 < p.2))
  let dc := (groupNunique (fun r => r.StudyDescription) (fun r => r.loincCode) m).filter
    (fun p => decide (1 < p.2))
  { passed := kc.isEmpty && cc.isEmpty,
    keyConflicts := kc, codeConflicts := cc, descriptionOnlyConflicts := dc }

/-- find_duplicates (xlsx2tsv.py lines 102-137).  With no or an empty
previous snapshot the result is (empty, new batch).  Otherwise the left
merge on the common columns with indicator yields, in new-batch order,
each matched new row once per matching previous row (the "both" rows) and
each unmatched new row once (the "left_only" rows).  In the
extract_excel_sheets flow the column sets of the two frames are identical
(guarded by validate_column_compatibility), so rows compare on all
columns. -/
def find_duplicates {α : Type} [DecidableEq α] (new_df : List α) (previous_df : Option (List α)) :
    List α × List α :=
  match previous_df with
  | none => ([], new_df)
  | some prev =>
    if prev.length == 0 then ([], new_df)
    else
      (new_df.flatMap (fun r => List.replicate (prev.count r) r),
       new_df.filter (fun r => !(prev.contains r)))

/-- merge_mappings (xlsx2tsv.py lines 140-161).  With no previous
snapshot the new batch is returned.  Otherwise the code drops from the
new batch the rows whose index lies in duplicates.index; the new batch
carries the RangeIndex 0..n-1 (it comes from pd.concat with
ignore_index=True) while duplicates carries the RangeIndex 0..d-1 (reset
in find_duplicates), so the mask removes exactly the first d positions of
the new batch, and the previous snapshot is concatenated with the rest. -/
def merge_mappings {α : Type} [DecidableEq α] (new_df : List α) (previous_df : Option (List α))
    (duplicates : List α) : List α :=
  match previous_df with
  | none => new_df
  | some prev => prev ++ new_df.drop duplicates.length

/-- A delimited table: its column names in order, and its rows as lists
of cell values. -/
structure Table where
  cols : List Str
  rows : List (List Str)
deriving DecidableEq

/-- validate_column_compatibility (xlsx2tsv.py lines 64-99): the check
itself is list equality of the column name lists (names and order). -/
def validate_column_compatibility (new_cols prev_cols : List Str) : Bool := new_cols == prev_cols

/-- The mismatch report printed by validate_column_compatibility
(xlsx2tsv.py lines 84-95): the two set differences of the column sets,
and whether the mismatch is an order mismatch (same sets, different
lists). -/
structure ColumnReport where
  missingInPrev : List Str
  missingInNew : List Str
  orderMismatch : Bool
deriving DecidableEq

/-- Build the column mismatch report of validate_column_compatibility. -/
def column_report (new_cols prev_cols : List Str) : ColumnReport :=
  { missingInPrev := (pdDropDuplicates new_cols).filter (fun c => !(prev_cols.contains c)),
    missingInNew := (pdDropDuplicates prev_cols).filter (fun c => !(new_cols.contains c)),
    orderMismatch := new_cols != prev_cols
      && new_cols.all (fun c => prev_cols.contains c)
      && prev_cols.all (fun c => new_cols.contains c) }

/-- The observable outcome of the tail of extract_excel_sheets: which
files get written, whether a column mismatch was reported and with what
report, and the function's return value. -/
structure ExtractOutcome where
  extractedFile : Option Table
  mergedFile : Option Table
  columnMismatch : Bool
  mismatchReport : Option ColumnReport
  returnedExtracted : Table
  returnedMerged : Option Table
deriving DecidableEq

/-- The tail of extract_excel_sheets (xlsx2tsv.py lines 262-309), after
the combined dataframe has been built: when a previous snapshot is
present, a column mismatch reports the diff and returns (combined, None)
at once - before the extraction output is written; otherwise duplicates
are found, the merged mapping is built when a merged output path is set,
the extraction output is written, and then the merged output. -/
def extract_tail (combined : Table) (previous : Option Table) (mergedOutput : Bool) : ExtractOutcome :=
  match previous with
  | none =>
    { extractedFile := some combined, mergedFile := none, columnMismatch := false,
      mismatchReport := none, returnedExtracted := combined, returnedMerged := none }
  | some prev =>
    if validate_column_compatibility combined.cols prev.cols then
      let dups := (find_duplicates combined.rows (some prev.rows)).1
      let mergedDf : Option Table :=
        if mergedOutput then
          some { cols := combined.cols, rows := merge_mappings combined.rows (some prev.rows) dups }
        else none
      { extractedFile := some combined, mergedFile := mergedDf,
        columnMismatch := false, mismatchReport := none,
        returnedExtracted := combined, returnedMerged := mergedDf }
    else
      { extractedFile := none, mergedFile := none, columnMismatch := true,
        mismatchReport := some (column_report combined.cols prev.cols),
        returnedExtracted := combined, returnedMerged := none }

/-- The string has no leading whitespace char. -/
def noLeadWs : Str → Bool
  | [] => true
  | c :: _ => !wsN c

/-- The string has no trailing whitespace char. -/
def noTrailWs : Str → Bool
  | [] => true
  | [c] => !wsN c
  | _ :: d :: t => noTrailWs (d :: t)

/-- The string has no two adjacent whitespace chars. -/
def noAdjWs : Str → Bool
  | c :: d :: t => !(wsN c && wsN d) && noAdjWs (d :: t)
  | _ => true

lemma stripSub_cons_nonws {c : Nat} (h : wsN c = false) (l : Str) :
    stripSub (c :: l) = c :: stripSub l := by
  cases l <;> simp [stripSub, h]

lemma noTrailWs_cons {c : Nat} {l : Str} (hl : noTrailWs l = true) (hc : wsN c = false ∨ l ≠ []) :
    noTrailWs (c :: l) = true := by
  cases l with
  | nil =>
    rcases hc with hc | hc
    · simp [noTrailWs, hc]
    · exact absurd rfl hc
  | cons d t => simpa [noTrailWs] using hl

lemma noAdjWs_cons {c : Nat} {l : Str} (hl : noAdjWs l = true)
    (hc : wsN c = false ∨ ∀ d t, l = d :: t → wsN d = false) :
    noAdjWs (c :: l) = true := by
  cases l with
  | nil => simp [noAdjWs]
  | cons d t =>
    rcases hc with hc | hc
    · simp [noAdjWs, hc, hl]
    · simp [noAdjWs, hc d t rfl, hl]

lemma noTrailWs_stripSub (l : Str) : noTrailWs (stripSub l) = true := by
  induction l with
  | nil => simp [stripSub, noTrailWs]
  | cons c rest ih =>
    cases rest with
    | nil =>
      by_cases hc : wsN c = true
      · simp [stripSub, hc, noTrailWs]
      · simp only [Bool.not_eq_true] at hc
        simp [stripSub, hc, noTrailWs]
    | cons d t =>
      by_cases hc : wsN c = true
      · by_cases hall : (d :: t).all wsN = true
        · simp [stripSub, hc, hall, noTrailWs]
        · simp only [Bool.not_eq_true] at hall
          by_cases hd : wsN d = true
          · simpa [stripSub, hc, hall, hd] using ih
          · simp only [Bool.not_eq_true] at hd
            rw [show stripSub (c :: d :: t) = c :: stripSub (d :: t) by
              simp [stripSub, hc, hall, hd]]
            rw [stripSub_cons_nonws hd] at ih ⊢
            exact noTrailWs_cons ih (Or.inr (by simp))
      · simp only [Bool.not_eq_true] at hc
        rw [stripSub_cons_nonws hc]
        exact noTrailWs_cons ih (Or.inl hc)

lemma noAdjWs_stripSub (l : Str) : noAdjWs (stripSub l) = true := by
  induction l with
  | nil => simp [stripSub, noAdjWs]
  | cons c rest ih =>
    cases rest with
    | nil =>
      by_cases hc : wsN c = true
      · simp [stripSub, hc, noAdjWs]
      · simp only [Bool.not_eq_true] at hc
        simp [stripSub, hc, noAdjWs]
    | cons d t =>
      by_cases hc : wsN c = true
      · by_cases hall : (d :: t).all wsN = true
        · simp [stripSub, hc, hall, noAdjWs]
        · simp only [Bool.not_eq_true] at hall
          by_cases hd : wsN d = true
          · simpa [stripSub, hc, hall, hd] using ih
          · simp only [Bool.not_eq_true] at hd
            rw [show stripSub (c :: d :: t) = c :: stripSub (d :: t) by
              simp [stripSub, hc, hall, hd]]
            refine noAdjWs_cons ih (Or.inr ?_)
            intro d' t' hdt
            rw [stripSub_cons_nonws hd] at hdt
            cases hdt
            exact hd
      · simp only [Bool.not_eq_true] at hc
        rw [stripSub_cons_nonws hc]
        exact noAdjWs_cons ih (Or.inl hc)

lemma stripSub_eq_self {l : Str} (h1 : noAdjWs l = true) (h2 : noTrailWs l = true) :
    stripSub l = l := by
  induction l with
  | nil => rfl
  | cons c rest ih =>
    cases rest with
    | nil =>
      have hc : wsN c = false := by simpa [noTrailWs] using h2
      simp [stripSub, hc]
    | cons d t =>
      have h1' : noAdjWs (d :: t) = true := by
        simp only [noAdjWs, Bool.and_eq_true] at h1
        exact h1.2
      have h2' : noTrailWs (d :: t) = true := by simpa [noTrailWs] using h2
      by_cases hc : wsN c = true
      · have hd : wsN d = false := by
          simp only [noAdjWs, Bool.and_eq_true, Bool.not_eq_true'] at h1
          rcases Bool.and_eq_false_iff.mp h1.1 with h | h
          · exact absurd hc (by simp [h])
          · exact h
        have hall : (d :: t).all wsN = false := by simp [hd]
        simp [stripSub, hc, hall, hd, ih h1' h2']
      · simp only [Bool.not_eq_true] at hc
        rw [stripSub_cons_nonws hc, ih h1' h2']

lemma stripSub_ws_all {c : Nat} (hc : wsN c = true) {rest : Str} (hall : rest.all wsN = true) :
    stripSub (c :: rest) = [] := by
  cases rest <;> simp [stripSub, hc, hall]

lemma stripSub_ws_ws {c d : Nat} {t : Str} (hc : wsN c = true) (hd : wsN d = true)
    (hall : (d :: t).all wsN = false) : stripSub (c :: d :: t) = stripSub (d :: t) := by
  simp [stripSub, hc, hd, hall]

lemma stripSub_ws_nonws {c d : Nat} {t : Str} (hc : wsN c = true) (hd : wsN d = false) :
    stripSub (c :: d :: t) = c :: stripSub (d :: t) := by
  have hall : (d :: t).all wsN = false := by simp [hd]
  simp [stripSub, hc, hd, hall]

lemma wsPatternSub_noLead (l : Str) : noLeadWs (wsPatternSub l) = true := by
  unfold wsPatternSub
  cases hm : l.dropWhile wsN with
  | nil => simp [stripSub, noLeadWs]
  | cons x t =>
    have hx : wsN x = false := by
      have := List.head_dropWhile_not wsN l (by simp [hm])
      simpa [hm, Bool.not_eq_true] using this
    rw [stripSub_cons_nonws hx]
    simp [noLeadWs, hx]

lemma wsPatternSub_noTrail (l : Str) : noTrailWs (wsPatternSub l) = true :=
  noTrailWs_stripSub _

lemma wsPatternSub_noAdj (l : Str) : noAdjWs (wsPatternSub l) = true :=
  noAdjWs_stripSub _

lemma wsPatternSub_idem (l : Str) : wsPatternSub (wsPatternSub l) = wsPatternSub l := by
  cases hm : wsPatternSub l with
  | nil => rfl
  | cons x t =>
    have hx : wsN x = false := by
      have h0 := wsPatternSub_noLead l
      rw [hm] at h0
      simpa [noLeadWs, Bool.not_eq_true] using h0
    have h1 : noAdjWs (x :: t) = true := hm ▸ wsPatternSub_noAdj l
    have h2 : noTrailWs (x :: t) = true := hm ▸ wsPatternSub_noTrail l
    unfold wsPatternSub
    rw [List.dropWhile_cons, if_neg (by simp [hx])]
    exact stripSub_eq_self h1 h2

lemma wsN_pyUpperChar (n : Nat) : wsN (pyUpperChar n) = wsN n := by
  unfold pyUpperChar wsN
  split
  · next h =>
    have e1 : (n - 32 == 32) = false := by simp; omega
    have e2 : (9 ≤ n - 32 && n - 32 ≤ 13) = false := by
      rw [Bool.and_eq_false_iff]
      right
      simp; omega
    have e3 : (n == 32) = false := by simp; omega
    have e4 : (9 ≤ n && n ≤ 13) = false := by
      rw [Bool.and_eq_false_iff]
      right
      simp; omega
    rw [e1, e2, e3, e4]
  · rfl

lemma pyUpperChar_idem (n : Nat) : pyUpperChar (pyUpperChar n) = pyUpperChar n := by
  unfold pyUpperChar
  split
  · next h => rw [if_neg (by omega)]
  · rfl

lemma pyUpper_cons (c : Nat) (t : Str) : pyUpper (c :: t) = pyUpperChar c :: pyUpper t := rfl

lemma all_wsN_pyUpper (l : Str) : (pyUpper l).all wsN = l.all wsN := by
  induction l with
  | nil => rfl
  | cons c t ih => rw [pyUpper_cons, List.all_cons, List.all_cons, wsN_pyUpperChar, ih]

lemma stripSub_pyUpper (l : Str) : stripSub (pyUpper l) = pyUpper (stripSub l) := by
  induction l with
  | nil => rfl
  | cons c rest ih =>
    by_cases hc : wsN c = true
    · have hc' : wsN (pyUpperChar c) = true := by rw [wsN_pyUpperChar]; exact hc
      by_cases hall : rest.all wsN = true
      · have hall' : (pyUpper rest).all wsN = true := by rw [all_wsN_pyUpper]; exact hall
        rw [pyUpper_cons, stripSub_ws_all hc' hall', stripSub_ws_all hc hall]
        rfl
      · simp only [Bool.not_eq_true] at hall
        cases rest with
        | nil => simp [List.all_nil] at hall
        | cons d t =>
          have hall' : (pyUpper (d :: t)).all wsN = false := by
            rw [all_wsN_pyUpper]; exact hall
          by_cases hd : wsN d = true
          · have hd' : wsN (pyUpperChar d) = true := by rw [wsN_pyUpperChar]; exact hd
            rw [pyUpper_cons, pyUpper_cons] at *
            rw [stripSub_ws_ws hc' hd' (pyUpper_cons d t ▸ hall'),
              stripSub_ws_ws hc hd hall, ih]
          · simp only [Bool.not_eq_true] at hd
            have hd' : wsN (pyUpperChar d) = false := by rw [wsN_pyUpperChar]; exact hd
            rw [pyUpper_cons, pyUpper_cons, stripSub_ws_nonws hc' hd',
              stripSub_ws_nonws hc hd, pyUpper_cons, ← pyUpper_cons d t, ih]
    · simp only [Bool.not_eq_true] at hc
      have hc' : wsN (pyUpperChar c) = false := by rw [wsN_pyUpperChar]; exact hc
      rw [pyUpper_cons, stripSub_cons_nonws hc', stripSub_cons_nonws hc, pyUpper_cons, ih]

lemma dropWhile_pyUpper (l : Str) : (pyUpper l).dropWhile wsN = pyUpper (l.dropWhile wsN) := by
  induction l with
  | nil => rfl
  | cons c t ih =>
    by_cases hc : wsN c = true
    · have hc' : wsN (pyUpperChar c) = true := by rw [wsN_pyUpperChar]; exact hc
      rw [pyUpper_cons, List.dropWhile_cons, List.dropWhile_cons, if_pos hc', if_pos hc, ih]
    · simp only [Bool.not_eq_true] at hc
      have hc' : wsN (pyUpperChar c) = false := by rw [wsN_pyUpperChar]; exact hc
      rw [pyUpper_cons, List.dropWhile_cons, List.dropWhile_cons]
      simp [hc, hc', pyUpper_cons]

lemma wsPatternSub_pyUpper (l : Str) : wsPatternSub (pyUpper l) = pyUpper (wsPatternSub l) := by
  unfold wsPatternSub
  rw [dropWhile_pyUpper, stripSub_pyUpper]

lemma pyUpper_idem (l : Str) : pyUpper (pyUpper l) = pyUpper l := by
  induction l with
  | nil => rfl
  | cons c t ih => rw [pyUpper_cons, pyUpper_cons, pyUpperChar_idem, ih]

lemma normalize_idem (l : Str) : normalize (normalize l) = normalize l := by
  unfold normalize
  rw [wsPatternSub_pyUpper, wsPatternSub_idem, pyUpper_idem]

lemma pdDropDupAux_cons {α : Type} [DecidableEq α] (seen : List α) (x : α) (xs : List α) :
    pdDropDupAux seen (x :: xs) =
      if seen.contains x then pdDropDupAux seen xs else x :: pdDropDupAux (x :: seen) xs := rfl

lemma mem_pdDropDupAux {α : Type} [DecidableEq α] {a : α} {seen l : List α} :
    a ∈ pdDropDupAux seen l ↔ a ∈ l ∧ a ∉ seen := by
  induction l generalizing seen with
  | nil => simp [pdDropDupAux]
  | cons x xs ih =>
    by_cases hx : seen.contains x
    · have hxs : x ∈ seen := by simpa using hx
      rw [pdDropDupAux_cons, if_pos hx, ih]
      constructor
      · rintro ⟨hm, hn⟩
        exact ⟨List.mem_cons_of_mem _ hm, hn⟩
      · rintro ⟨hm, hn⟩
        rcases List.mem_cons.mp hm with h | h
        · exact absurd (h ▸ hxs) hn
        · exact ⟨h, hn⟩
    · rw [pdDropDupAux_cons, if_neg hx, List.mem_cons, ih]
      constructor
      · rintro (rfl | ⟨hm, hn⟩)
        · exact ⟨List.mem_cons_self _ _, by simpa using hx⟩
        · exact ⟨List.mem_cons_of_mem _ hm, fun hs => hn (List.mem_cons_of_mem _ hs)⟩
      · rintro ⟨hm, hn⟩
        by_cases hax : a = x
        · exact Or.inl hax
        · rcases List.mem_cons.mp hm with h | h
          · exact absurd h hax
          · exact Or.inr ⟨h, by simp [hax, hn]⟩

lemma nodup_pdDropDupAux {α : Type} [DecidableEq α] (seen l : List α) :
    (pdDropDupAux seen l).Nodup := by
  induction l generalizing seen with
  | nil => simp [pdDropDupAux]
  | cons x xs ih =>
    by_cases hx : seen.contains x
    · rw [pdDropDupAux_cons, if_pos hx]
      exact ih seen
    · rw [pdDropDupAux_cons, if_neg hx]
      refine List.nodup_cons.mpr ⟨?_, ih (x :: seen)⟩
      intro hmem
      exact (mem_pdDropDupAux.mp hmem).2 (List.mem_cons_self _ _)

lemma mem_pdDropDuplicates {α : Type} [DecidableEq α] {a : α} {l : List α} :
    a ∈ pdDropDuplicates l ↔ a ∈ l := by
  unfold pdDropDuplicates
  rw [mem_pdDropDupAux]
  simp

lemma nodup_pdDropDuplicates {α : Type} [DecidableEq α] (l : List α) :
    (pdDropDuplicates l).Nodup := nodup_pdDropDupAux [] l

lemma pdDropDuplicates_length_le_one_iff {α : Type} [DecidableEq α] {l : List α} :
    (pdDropDuplicates l).length ≤ 1 ↔ ∀ a ∈ l, ∀ b ∈ l, a = b := by
  constructor
  · intro h a ha b hb
    have ha' : a ∈ pdDropDuplicates l := mem_pdDropDuplicates.mpr ha
    have hb' : b ∈ pdDropDuplicates l := mem_pdDropDuplicates.mpr hb
    cases hd : pdDropDuplicates l with
    | nil => rw [hd] at ha'; exact absurd ha' (List.not_mem_nil a)
    | cons x t =>
      cases t with
      | nil =>
        rw [hd] at ha' hb'
        have : a = x := by simpa using ha'
        have hbx : b = x := by simpa using hb'
        rw [this, hbx]
      | cons y u => rw [hd] at h; simp at h
  · intro h
    cases hd : pdDropDuplicates l with
    | nil => simp
    | cons x t =>
      cases t with
      | nil => simp
      | cons y u =>
        have hx : x ∈ l := mem_pdDropDuplicates.mp (hd ▸ List.mem_cons_self _ _)
        have hy : y ∈ l := mem_pdDropDuplicates.mp
          (hd ▸ List.mem_cons_of_mem _ (List.mem_cons_self _ _))
        have hnd := nodup_pdDropDuplicates l
        rw [hd] at hnd
        have hxy : x ≠ y := by
          intro hcon
          exact (List.nodup_cons.mp hnd).1 (hcon ▸ List.mem_cons_self _ _)
        exact absurd (h x hx y hy) hxy

lemma pySplit_no_comma {m : Str} (h : 44 ∉ m) : pySplit m = [m] := by
  induction m with
  | nil => rfl
  | cons c rest ih =>
    have hc : (c == 44) = false := by
      simp only [beq_eq_false_iff_ne, ne_eq]
      intro hcon
      exact h (hcon ▸ List.mem_cons_self _ _)
    have hrest : pySplit rest = [rest] := ih (fun hm => h (List.mem_cons_of_mem _ hm))
    simp [pySplit, hc, hrest]

lemma groupNunique_no_conflict_iff {κ ν : Type} [DecidableEq κ] [DecidableEq ν]
    (key : MappingRow → κ) (val : MappingRow → ν) (rows : List MappingRow) :
    ((groupNunique key val rows).filter (fun p => decide (1 < p.2))).isEmpty = true ↔
      ∀ r ∈ rows, ∀ r' ∈ rows, key r = key r' → val r = val r' := by
  rw [List.isEmpty_iff, List.filter_eq_nil_iff]
  constructor
  · intro h r hr r' hr' hk
    have hkmem : key r ∈ pdDropDuplicates (rows.map key) :=
      mem_pdDropDuplicates.mpr (List.mem_map_of_mem key hr)
    have hpair : (key r, (pdDropDuplicates
        ((rows.filter (fun q => key q == key r)).map val)).length) ∈ groupNunique key val rows :=
      List.mem_map_of_mem _ hkmem
    have hle := h _ hpair
    simp only [decide_eq_true_eq, Nat.not_lt] at hle
    have hv : val r ∈ (rows.filter (fun q => key q == key r)).map val :=
      List.mem_map_of_mem val (List.mem_filter.mpr ⟨hr, by simp⟩)
    have hv' : val r' ∈ (rows.filter (fun q => key q == key r)).map val :=
      List.mem_map_of_mem val (List.mem_filter.mpr ⟨hr', by simp [hk]⟩)
    exact pdDropDuplicates_length_le_one_iff.mp hle _ hv _ hv'
  · intro h p hp
    simp only [decide_eq_true_eq, Nat.not_lt]
    rcases List.mem_map.mp hp with ⟨k, hk, rfl⟩
    apply pdDropDuplicates_length_le_one_iff.mpr
    intro a ha b hb
    rcases List.mem_map.mp ha with ⟨r, hr, rfl⟩
    rcases List.mem_map.mp hb with ⟨r', hr', rfl⟩
    have hrk : key r = k := by simpa using (List.mem_filter.mp hr).2
    have hrk' : key r' = k := by simpa using (List.mem_filter.mp hr').2
    exact h r (List.mem_filter.mp hr).1 r' (List.mem_filter.mp hr').1 (hrk.trans hrk'.symm)

lemma mem_find_unmapped {o : OutputRow} {input_df : List InputRow} {mapping_df : List MappingRow} :
    o ∈ find_unmapped_combinations input_df mapping_df ↔
      ∃ r ∈ input_df, (¬∃ m ∈ mapping_df,
        m.StudyDescription = r.StudyDescription ∧ m.Modality = r.Modality) ∧ o = mkOutputRow r := by
  unfold find_unmapped_combinations
  rw [List.mem_map]
  constructor
  · rintro ⟨r, hr, rfl⟩
    have hf := List.mem_filter.mp hr
    refine ⟨r, hf.1, ?_, rfl⟩
    rintro ⟨m, hm, h1, h2⟩
    have : mapping_df.any (fun m => keyMatches m r) = true :=
      List.any_eq_true.mpr ⟨m, hm, by simp [keyMatches, h1, h2]⟩
    rw [this] at hf
    simp at hf
  · rintro ⟨r, hr, hno, rfl⟩
    refine ⟨r, List.mem_filter.mpr ⟨hr, ?_⟩, rfl⟩
    simp only [Bool.not_eq_eq_eq_not, Bool.not_true, List.any_eq_false]
    intro m hm
    intro hcon
    rw [keyMatches, Bool.and_eq_true, beq_iff_eq, beq_iff_eq] at hcon
    exact hno ⟨m, hm, hcon.1, hcon.2⟩

lemma pyUpperChar_not_lower (n : Nat) : ¬(97 ≤ pyUpperChar n ∧ pyUpperChar n ≤ 122) := by
  unfold pyUpperChar
  split
  · next h => omega
  · next h => omega

lemma stripSub_of_no_ws {m : Str} (h : ∀ c ∈ m, wsN c = false) : stripSub m = m := by
  induction m with
  | nil => rfl
  | cons c t ih =>
    rw [stripSub_cons_nonws (h c (List.mem_cons_self _ _)),
      ih (fun d hd => h d (List.mem_cons_of_mem _ hd))]

lemma validate_passed_eq (rows : List MappingRow) :
    (validate_mapping_table rows).passed =
      (((groupNunique (fun r => (r.Modality, r.StudyDescription)) (fun r => r.loincCode)
          (validateNormalize rows)).filter (fun p => decide (1 < p.2))).isEmpty
        && ((groupNunique (fun r => r.loincCode) (fun r => r.longCommonName)
          (validateNormalize rows)).filter (fun p => decide (1 < p.2))).isEmpty) := rfl

/-- Claim C1: a candidate row whose (normalized StudyDescription, Modality)
key equals the key of some row of the prepared (exploded) reference table
never appears in the unmapped result, and a candidate row whose key is
absent from every row of the prepared reference table is included,
annotated with the Contributor label and its frequency value. -/
theorem C1_unmapped_iff_key_absent (rawIn : List InputRow) (rawMap : List MappingRow)
    (r : InputRow) (hr : r ∈ load_and_clean_input_data rawIn) :
    ((∃ m ∈ load_and_prepare_mapping_table rawMap,
        m.StudyDescription = r.StudyDescription ∧ m.Modality = r.Modality) →
      ∀ o ∈ find_unmapped_combinations (load_and_clean_input_data rawIn)
          (load_and_prepare_mapping_table rawMap),
        ¬(o.StudyDescription = r.StudyDescription ∧ o.Modality = r.Modality)) ∧
    ((¬∃ m ∈ load_and_prepare_mapping_table rawMap,
        m.StudyDescription = r.StudyDescription ∧ m.Modality = r.Modality) →
      mkOutputRow r ∈ find_unmapped_combinations (load_and_clean_input_data rawIn)
          (load_and_prepare_mapping_table rawMap) ∧
        (mkOutputRow r).Contributor = CONTRIBUTOR_NAME ∧
        (mkOutputRow r).frequency = r.frequency) := by
  constructor
  · rintro ⟨m, hm, h1, h2⟩ o ho ⟨ho1, ho2⟩
    rcases mem_find_unmapped.mp ho with ⟨r'', _, hno, rfl⟩
    have ho1' : r''.StudyDescription = r.StudyDescription := ho1
    have ho2' : r''.Modality = r.Modality := ho2
    exact hno ⟨m, hm, h1.trans ho1'.symm, h2.trans ho2'.symm⟩
  · intro hno
    exact ⟨mem_find_unmapped.mpr ⟨r, hr, hno, rfl⟩, rfl, rfl⟩

/-- Claim C1 witness: the candidate key (MR BRAIN, MR) is absent from a
reference containing only (CT HEAD, CT), so its output row is produced. -/
theorem C1_witness :
    mkOutputRow { StudyDescription := s2l "MR BRAIN", Modality := s2l "MR",
                  frequency := s2l "7" } ∈
      find_unmapped_combinations
        (load_and_clean_input_data
          [{ StudyDescription := s2l "MR BRAIN", Modality := s2l "MR", frequency := s2l "7" }])
        (load_and_prepare_mapping_table
          [{ StudyDescription := s2l "CT HEAD", Modality := s2l "CT",
             loincCode := s2l "24725-4", longCommonName := s2l "CT Head" }]) :=
  ((C1_unmapped_iff_key_absent _ _ _ (by decide)).2 (by decide)).1

/-- Claim C2 counterexample: a candidate Modality "NM, PT" is cleaned with
the whitespace pattern, which keeps its interior single space, while the
reference side removes all spaces, so the two sides disagree and the
candidate is reported unmapped even though it differs from the reference
Modality only in internal spacing. -/
theorem C2_counterexample :
    wsPatternSub (s2l "NM, PT") ≠ removeSpaces (s2l "NM, PT") ∧
    load_and_clean_input_data
        [{ StudyDescription := s2l "CHEST PET", Modality := s2l "NM, PT", frequency := s2l "3" }] =
      [{ StudyDescription := s2l "CHEST PET", Modality := s2l "NM, PT", frequency := s2l "3" }] ∧
    find_unmapped_combinations
        (load_and_clean_input_data
          [{ StudyDescription := s2l "CHEST PET", Modality := s2l "NM, PT", frequency := s2l "3" }])
        (load_and_prepare_mapping_table
          [{ StudyDescription := s2l "CHEST PET", Modality := s2l "NM, PT",
             loincCode := s2l "1-1", longCommonName := s2l "PET Chest" }]) ≠ [] :=
  ⟨by decide, by decide, by decide⟩

/-- Claim C2 (amended): the candidate side cleans Modality with the
whitespace pattern (interior single whitespace survives) while the
reference side removes all space characters; the two policies agree
exactly on whitespace-free strings, so a whitespace-free candidate
Modality matches a reference Modality that differs only by spaces, but a
candidate Modality with an interior single space does not. -/
theorem C2_amended_modality_policies :
    (∀ m : Str, (∀ c ∈ m, wsN c = false) → wsPatternSub m = m ∧ removeSpaces m = m) ∧
    (load_and_clean_input_data
        [{ StudyDescription := s2l "CHEST PET", Modality := s2l "NM, PT",
           frequency := s2l "3" }]).map (fun r => r.Modality) = [s2l "NM, PT"] ∧
    (load_and_prepare_mapping_table
        [{ StudyDescription := s2l "CHEST PET", Modality := s2l "NM, PT",
           loincCode := s2l "1-1", longCommonName := s2l "PET Chest" }]).map
      (fun r => r.Modality) = [s2l "NM,PT", s2l "NM", s2l "PT"] ∧
    find_unmapped_combinations
        (load_and_clean_input_data
          [{ StudyDescription := s2l "CHEST PET", Modality := s2l "NM,PT", frequency := s2l "3" }])
        (load_and_prepare_mapping_table
          [{ StudyDescription := s2l "CHEST PET", Modality := s2l "NM, PT",
             loincCode := s2l "1-1", longCommonName := s2l "PET Chest" }]) = [] := by
  refine ⟨?_, by decide, by decide, by decide⟩
  intro m hm
  constructor
  · have hd : m.dropWhile wsN = m := by
      cases m with
      | nil => rfl
      | cons c t =>
        rw [List.dropWhile_cons, if_neg (by simp [hm c (List.mem_cons_self _ _)])]
    rw [wsPatternSub, hd]
    exact stripSub_of_no_ws hm
  · apply List.filter_eq_self.mpr
    intro c hc
    have : wsN c = false := hm c hc
    simp only [bne_iff_ne, ne_eq]
    intro hcon
    rw [hcon] at this
    simp [wsN] at this

/-- Claim C2 witness: both cleaning policies fix the whitespace-free
Modality value "NMPT". -/
theorem C2_witness :
    wsPatternSub (s2l "NMPT") = s2l "NMPT" ∧ removeSpaces (s2l "NMPT") = s2l "NMPT" :=
  C2_amended_modality_policies.1 (s2l "NMPT") (by decide)

/-- Claim C3 counterexample: the normalization collapses the interior
whitespace run of "CT  HEAD" to a single space, giving "CT HEAD", not the
"CTHEAD" that full interior removal would give. -/
theorem C3_counterexample :
    normalize (s2l "CT  HEAD") = s2l "CT HEAD" ∧ normalize (s2l "CT  HEAD") ≠ s2l "CTHEAD" :=
  ⟨by decide, by decide⟩

/-- Claim C3 (amended): the StudyDescription normalization used on both
sides strips all leading and trailing whitespace, collapses every
interior whitespace run to a single whitespace character (the run's last
character, not to nothing), and upper-cases; "CT  HEAD" normalizes to
"CT HEAD". -/
theorem C3_amended_normalization :
    (∀ s : Str, noLeadWs (normalize s) = true ∧ noTrailWs (normalize s) = true ∧
        noAdjWs (normalize s) = true) ∧
    (∀ s : Str, ∀ c ∈ normalize s, ¬(97 ≤ c ∧ c ≤ 122)) ∧
    normalize (s2l "CT  HEAD") = s2l "CT HEAD" ∧
    normalize (s2l "  Ct \t HEAD  ") = s2l "CT HEAD" := by
  refine ⟨?_, ?_, by decide, by decide⟩
  · intro s
    have h : normalize s = wsPatternSub (pyUpper s) := (wsPatternSub_pyUpper s).symm
    rw [h]
    exact ⟨wsPatternSub_noLead _, wsPatternSub_noTrail _, wsPatternSub_noAdj _⟩
  · intro s c hc
    rcases List.mem_map.mp hc with ⟨b, _, rfl⟩
    exact pyUpperChar_not_lower b

/-- Claim C3 witness: the amended normal-form properties evaluated on the
concrete input "CT  HEAD" and one of its output characters. -/
theorem C3_witness :
    noAdjWs (normalize (s2l "CT  HEAD")) = true ∧ ¬(97 ≤ (67 : Nat) ∧ (67 : Nat) ≤ 122) :=
  ⟨(C3_amended_normalization.1 (s2l "CT  HEAD")).2.2,
    C3_amended_normalization.2.1 (s2l "CT  HEAD") 67 (by decide)⟩

/-- Claim C4: the exploded reference view is the union of the space-free
rows with one row per comma-split Modality atom, exact duplicates are
removed keeping first occurrences, a single-atom Modality yields one row
after deduplication, and an empty Modality splits into the one-atom list
containing the empty string. -/
theorem C4_modality_expansion :
    (∀ r : MappingRow, explodeUnion [r] =
        r :: (pySplit r.Modality).map (fun a => { r with Modality := a })) ∧
    (∀ (rows : List MappingRow) (x : MappingRow),
        x ∈ explodeUnion rows ↔
          x ∈ rows ∨ ∃ r ∈ rows, ∃ a ∈ pySplit r.Modality, x = { r with Modality := a }) ∧
    (∀ rows : List MappingRow, (pdDropDuplicates (explodeUnion rows)).Nodup ∧
        ∀ x, x ∈ pdDropDuplicates (explodeUnion rows) ↔ x ∈ explodeUnion rows) ∧
    (∀ r : MappingRow, 44 ∉ r.Modality → pdDropDuplicates (explodeUnion [r]) = [r]) ∧
    pySplit ([] : Str) = [[]] := by
  refine ⟨?_, ?_, ?_, ?_, rfl⟩
  · intro r
    simp [explodeUnion]
  · intro rows x
    constructor
    · intro h
      rcases List.mem_append.mp h with h | h
      · exact Or.inl h
      · rcases List.mem_flatMap.mp h with ⟨r, hrr, hx⟩
        rcases List.mem_map.mp hx with ⟨a, ha, rfl⟩
        exact Or.inr ⟨r, hrr, a, ha, rfl⟩
    · rintro (h | ⟨r, hrr, a, ha, rfl⟩)
      · exact List.mem_append.mpr (Or.inl h)
      · exact List.mem_append.mpr
          (Or.inr (List.mem_flatMap.mpr ⟨r, hrr, List.mem_map.mpr ⟨a, ha, rfl⟩⟩))
  · intro rows
    exact ⟨nodup_pdDropDuplicates _, fun _ => mem_pdDropDuplicates⟩
  · intro r h44
    have he : explodeUnion [r] = [r, r] := by
      have h1 : explodeUnion [r] =
          r :: (pySplit r.Modality).map (fun a => { r with Modality := a }) := by
        simp [explodeUnion]
      rw [h1, pySplit_no_comma h44]
      rfl
    rw [he]
    show pdDropDupAux [] [r, r] = [r]
    rw [pdDropDupAux_cons, if_neg (by simp), pdDropDupAux_cons, if_pos (by simp)]
    rfl

/-- Claim C4 witness: a single-atom Modality row yields exactly itself
after explosion and deduplication. -/
theorem C4_witness :
    pdDropDuplicates (explodeUnion
        [{ StudyDescription := s2l "CT HEAD", Modality := s2l "CT",
           loincCode := s2l "24725-4", longCommonName := s2l "CT Head" }]) =
      [{ StudyDescription := s2l "CT HEAD", Modality := s2l "CT",
         loincCode := s2l "24725-4", longCommonName := s2l "CT Head" }] :=
  C4_modality_expansion.2.2.2.1 _ (by decide)

/-- Claim C5: the validator passes exactly when, over the normalized
non-exploded table, no (Modality, StudyDescription) group carries two
distinct LOINC codes and no LOINC code group carries two distinct
normalized Long Common Names; the third (description-only) check never
enters the pass flag. -/
theorem C5_validator_passed_iff (rows : List MappingRow) :
    (validate_mapping_table rows).passed = true ↔
      ((∀ r ∈ validateNormalize rows, ∀ r' ∈ validateNormalize rows,
          r.Modality = r'.Modality → r.StudyDescription = r'.StudyDescription →
            r.loincCode = r'.loincCode) ∧
        (∀ r ∈ validateNormalize rows, ∀ r' ∈ validateNormalize rows,
          r.loincCode = r'.loincCode → r.longCommonName = r'.longCommonName)) := by
  have h1 := groupNunique_no_conflict_iff (fun r => (r.Modality, r.StudyDescription))
    (fun r => r.loincCode) (validateNormalize rows)
  have h2 := groupNunique_no_conflict_iff (fun r => r.loincCode)
    (fun r => r.longCommonName) (validateNormalize rows)
  rw [validate_passed_eq, Bool.and_eq_true, h1, h2]
  constructor
  · rintro ⟨ha, hb⟩
    refine ⟨?_, hb⟩
    intro r hrm r' hrm' hmod hsd
    exact ha r hrm r' hrm' (by rw [hmod, hsd])
  · rintro ⟨ha, hb⟩
    refine ⟨?_, hb⟩
    intro r hrm r' hrm' hp
    exact ha r hrm r' hrm' (congrArg Prod.fst hp) (congrArg Prod.snd hp)

/-- Claim C5 witness: a one-row table has no conflicting groups and the
validator passes. -/
theorem C5_witness :
    (validate_mapping_table
      [{ StudyDescription := s2l "CT HEAD", Modality := s2l "CT",
         loincCode := s2l "24725-4", longCommonName := s2l "CT Head" }]).passed = true :=
  (C5_validator_passed_iff _).mpr (by decide)

/-- Claim C6 evaluation at the failing input: with new batch [MR, CT] and
previous snapshot [CT], find_duplicates correctly yields duplicates [CT]
and unique [MR], but merge_mappings drops the first len(duplicates) rows
of the new batch (an index artifact of the reset RangeIndex), producing
[CT, CT] instead of the previous snapshot concatenated with the unique
new rows [CT, MR]. -/
theorem C6_merge_bug_eval :
    find_duplicates [s2l "MR", s2l "CT"] (some [s2l "CT"]) = ([s2l "CT"], [s2l "MR"]) ∧
    merge_mappings [s2l "MR", s2l "CT"] (some [s2l "CT"]) [s2l "CT"] = [s2l "CT", s2l "CT"] ∧
    merge_mappings [s2l "MR", s2l "CT"] (some [s2l "CT"]) [s2l "CT"] ≠ [s2l "CT"] ++ [s2l "MR"] :=
  ⟨by decide, by decide, by decide⟩

/-- Claim C7 evaluation at the failing input: on a column mismatch the
symmetric differences and order mismatch are reported and no merged
output is produced, but extract_excel_sheets returns before its save
step, so the extraction output file is not written either. -/
theorem C7_extract_output_skipped :
    extract_tail
        { cols := [s2l "Modality", s2l "StudyDescription"],
          rows := [[s2l "CT", s2l "CT HEAD"]] }
        (some { cols := [s2l "StudyDescription", s2l "Modality"],
                rows := [[s2l "CT HEAD", s2l "CT"]] }) true =
      { extractedFile := none, mergedFile := none, columnMismatch := true,
        mismatchReport := some { missingInPrev := [], missingInNew := [], orderMismatch := true },
        returnedExtracted :=
          { cols := [s2l "Modality", s2l "StudyDescription"],
            rows := [[s2l "CT", s2l "CT HEAD"]] },
        returnedMerged := none } ∧
    (extract_tail
        { cols := [s2l "Modality", s2l "StudyDescription"],
          rows := [[s2l "CT", s2l "CT HEAD"]] }
        (some { cols := [s2l "StudyDescription", s2l "Modality"],
                rows := [[s2l "CT HEAD", s2l "CT"]] }) true).extractedFile ≠
      some { cols := [s2l "Modality", s2l "StudyDescription"],
             rows := [[s2l "CT", s2l "CT HEAD"]] } :=
  ⟨by decide, by decide⟩

/-- Claim C9: the StudyDescription normalization is idempotent and
case-insensitive. -/
theorem C9_normalize_idempotent :
    (∀ s : Str, normalize (normalize s) = normalize s) ∧
      normalize (s2l "Ct Head") = normalize (s2l "CT HEAD") :=
  ⟨normalize_idem, by decide⟩

/-- Claim C10: with an empty differences dataframe, save_differences
returns at once and the filesystem state (pending directory and output
file) is unchanged. -/
theorem C10_save_differences_empty_frame (differences_df : List OutputRow) (fs : FileSystem)
    (h : differences_df.isEmpty = true) : save_differences differences_df fs = fs := by
  unfold save_differences
  rw [if_pos h]

/-- Claim C10 witness: the empty dataframe on a filesystem without the
pending directory leaves it without the pending directory and without the
output file. -/
theorem C10_witness :
    save_differences [] { pendingDirExists := false, diffsFile := none } =
      { pendingDirExists := false, diffsFile := none } :=
  C10_save_differences_empty_frame [] { pendingDirExists := false, diffsFile := none } (by decide)

end Midrc
